import Mathlib

/-!
Shallow embedding of the maze library (cell/grid data model, the Binary
Tree and Sidewinder generators, and the corner-glyph selection of the
renderer), together with proofs about it.

Cells are identified by their `(row, column)` coordinates, so a cell
pointer becomes a `Pos` and a possibly-nil pointer becomes `Option Pos`.
The mutable per-cell link map `links map[*Cell]bool` becomes a function
`Pos → Option Pos → Bool` (the key type admits `none` because Go maps
accept the nil pointer as a key).  `int64` values become `Int`; the grid
dimensions involved never approach the 64-bit range, so wrap-around is
unobservable.
-/

namespace Maze

/-- A cell is identified by its `(row, column)` position in its grid. -/
abbrev Pos := Int × Int

/-- `Grid` (and the identical `RectangleGrid`): row and column counts.
The cell array itself is implicit: cell `(r, c)` exists iff it is in
bounds, which is what `prepareGrid` arranges. -/
structure Grid where
  rows : Int
  cols : Int
deriving DecidableEq, Repr

/-- `NewGrid`: construction is fatal (`log.Fatalf`, modelled as `none`)
iff a dimension is negative; zero dimensions are permitted. -/
def NewGrid (rows cols : Int) : Option Grid :=
  if rows < 0 ∨ cols < 0 then none else some ⟨rows, cols⟩

/-- `At`: bounds-checked lookup, `nil` (= `none`) outside the grid. -/
def Grid.At (g : Grid) (row col : Int) : Option Pos :=
  if row < 0 ∨ col < 0 ∨ row ≥ g.rows ∨ col ≥ g.cols then none
  else some (row, col)

/-- `cell.North` as wired by `configureCells`: `g.At(row-1, column)`. -/
def Grid.north (g : Grid) (p : Pos) : Option Pos := g.At (p.1 - 1) p.2

/-- `cell.South` as wired by `configureCells`: `g.At(row+1, column)`. -/
def Grid.south (g : Grid) (p : Pos) : Option Pos := g.At (p.1 + 1) p.2

/-- `cell.West` as wired by `configureCells`: `g.At(row, column-1)`. -/
def Grid.west (g : Grid) (p : Pos) : Option Pos := g.At p.1 (p.2 - 1)

/-- `cell.East` as wired by `configureCells`: `g.At(row, column+1)`. -/
def Grid.east (g : Grid) (p : Pos) : Option Pos := g.At p.1 (p.2 + 1)

/-- The positions at which `prepareGrid` creates a cell. -/
def Grid.inBounds (g : Grid) (p : Pos) : Prop :=
  0 ≤ p.1 ∧ p.1 < g.rows ∧ 0 ≤ p.2 ∧ p.2 < g.cols

instance (g : Grid) (p : Pos) : Decidable (g.inBounds p) := by
  unfold Grid.inBounds; infer_instance

/-- `Size`: the number of cells, `Rows * Columns`. -/
def Grid.Size (g : Grid) : Int := g.rows * g.cols

/-- The rows of the grid in the order `AllRows` yields them
(top to bottom, each row west to east). -/
def Grid.rowList (g : Grid) : List (List Pos) :=
  (List.range g.rows.toNat).map
    (fun r : Nat => (List.range g.cols.toNat).map (fun c : Nat => ((r : Int), (c : Int))))

/-- The cells of the grid in the order `AllCells` yields them
(row-major). -/
def Grid.cellList (g : Grid) : List Pos := g.rowList.flatten

/-- The union of all per-cell link maps: `s p n` is the value of
`p.links[n]` (`false` both for a missing key and an explicit `false`). -/
abbrev LinkState := Pos → Option Pos → Bool

/-- Freshly constructed cells: `make(map[*Cell]bool)` is empty. -/
def initLinks : LinkState := fun _ _ => false

/-- `LinkOneWay` with a present receiver `c`: `c.links[neighbor] = true`.
The neighbor may be nil (`none`); Go happily inserts the nil key. -/
def LinkOneWay (s : LinkState) (c : Pos) (n : Option Pos) : LinkState :=
  fun p m => if p = c ∧ m = n then true else s p m

/-- `UnlinkOneWay` with a present receiver: `delete(c.links, neighbor)`. -/
def UnlinkOneWay (s : LinkState) (c : Pos) (n : Option Pos) : LinkState :=
  fun p m => if p = c ∧ m = n then false else s p m

/-- `Link` between two present cells: the two `LinkOneWay` calls. -/
def link2 (s : LinkState) (a b : Pos) : LinkState :=
  LinkOneWay (LinkOneWay s a (some b)) b (some a)

/-- `Unlink` between two present cells: the two `UnlinkOneWay` calls. -/
def unlink2 (s : LinkState) (a b : Pos) : LinkState :=
  UnlinkOneWay (UnlinkOneWay s a (some b)) b (some a)

/-- `Link` with a possibly-nil neighbor.  `c.LinkOneWay(neighbor)` runs
first; then `neighbor.LinkOneWay(c)` dereferences `neighbor`, which
panics (`none`) when the neighbor is nil. -/
def Link (s : LinkState) (c : Pos) : Option Pos → Option LinkState
  | some b => some (link2 s c b)
  | none => none

/-- `Linked`: `false` for a nil neighbor, otherwise the map lookup
`linked, ok := c.links[neighbor]; return ok && linked`. -/
def Linked (s : LinkState) (c : Pos) : Option Pos → Bool
  | some b => s c (some b)
  | none => false

/-- The `neighbors` slice built by `BinaryTree` for one cell: North if
present, then East if present. -/
def btNeighbors (g : Grid) (p : Pos) : List Pos :=
  (g.north p).toList ++ (g.east p).toList

/-- One iteration of `BinaryTree`'s loop body.  `choice p` models the
value `rand.Intn(len(neighbors))` returned at cell `p`; reducing it
modulo the length keeps every value the generator can return reachable
while making the function total. -/
def btStep (g : Grid) (choice : Pos → Nat) (s : LinkState) (p : Pos) : LinkState :=
  if h : btNeighbors g p = [] then s
  else
    link2 s p ((btNeighbors g p).get
      ⟨choice p % (btNeighbors g p).length,
       Nat.mod_lt _ (List.length_pos.mpr h)⟩)

/-- `BinaryTree`: one linking decision per cell, over `AllCells` in
row-major order, starting from the all-empty link maps of a fresh grid. -/
def BinaryTree (g : Grid) (choice : Pos → Nat) : LinkState :=
  g.cellList.foldl (btStep g choice) initLinks

/-- The loop state of `Sidewinder`: the link maps, the current `run`
slice, the number of `rand` draws consumed so far (`k` indexes the
random stream, capturing exactly when a draw happens), and a ghost
record of the `run` slice at each close-out (written but never read by
the computation itself). -/
structure SWState where
  links : LinkState
  run : List Pos
  k : Nat
  closedRuns : List (List Pos)

/-- The close-out branch of `Sidewinder`:
`member := run[rand.Intn(len(run))]; if member.North != nil { member.Link(member.North) }`.
`f k` is the `rand.Intn(len(run))` draw (reduced modulo the length; the
run is never empty here, so the `getD` default is unreachable).  Note
the source does NOT reset `run` here: the run carries over unchanged. -/
def swCloseOut (g : Grid) (f : Nat → Nat) (links : LinkState) (run : List Pos)
    (k : Nat) (closed : List (List Pos)) : SWState :=
  let member := run.getD (f k % run.length) (0, 0)
  { links :=
      match g.north member with
      | some n => link2 links member n
      | none => links
    run := run
    k := k + 1
    closedRuns := closed ++ [run] }

/-- One iteration of `Sidewinder`'s inner loop.  The match structure
mirrors Go's short-circuit evaluation of
`atEasternBoundary || (!atNorthernBoundary && rand.Intn(2) == 0)`:
the coin (`f st.k % 2`) is drawn only when the cell has both an East
and a North neighbor. -/
def swStep (g : Grid) (f : Nat → Nat) (st : SWState) (p : Pos) : SWState :=
  let run := st.run ++ [p]
  match g.east p with
  | none =>
      swCloseOut g f st.links run st.k st.closedRuns
  | some e =>
      match g.north p with
      | none =>
          { links := link2 st.links p e, run := run, k := st.k,
            closedRuns := st.closedRuns }
      | some _ =>
          if f st.k % 2 = 0 then
            swCloseOut g f st.links run (st.k + 1) st.closedRuns
          else
            { links := link2 st.links p e, run := run, k := st.k + 1,
              closedRuns := st.closedRuns }

/-- One iteration of `Sidewinder`'s outer loop: `run` is reset to the
empty slice at the top of each row. -/
def swRow (g : Grid) (f : Nat → Nat) (st : SWState) (row : List Pos) : SWState :=
  row.foldl (swStep g f)
    { links := st.links, run := [], k := st.k, closedRuns := st.closedRuns }

/-- `Sidewinder` over the whole grid, starting from empty link maps.
`f` is the stream of `rand` draws, consumed in call order. -/
def Sidewinder (g : Grid) (f : Nat → Nat) : SWState :=
  g.rowList.foldl (swRow g f)
    { links := initLinks, run := [], k := 0, closedRuns := [] }

/-- `rand.Int63n(n)`: panics (`none`) when `n <= 0`, otherwise some
value in `[0, n)`; `draw` models which one. -/
def int63n (n : Int) (draw : Nat) : Option Int :=
  if n ≤ 0 then none else some ((draw : Int) % n)

/-- `RandomCell`: `g.At(rand.Int63n(g.Rows), rand.Int63n(g.Columns))`.
The outer `Option` is the panic of `Int63n`; the inner one is the
returned cell pointer. -/
def RandomCell (g : Grid) (d1 d2 : Nat) : Option (Option Pos) :=
  match int63n g.rows d1 with
  | none => none
  | some r =>
      match int63n g.cols d2 with
      | none => none
      | some c => some (g.At r c)

/-- The Unicode light box drawing characters of the renderer. -/
def horizontal : Char := '─'

def vertical : Char := '│'

def cornerDownRight : Char := '┌'

def cornerDownLeft : Char := '┐'

def cornerUpRight : Char := '└'

def cornerUpLeft : Char := '┘'

def verticalRight : Char := '├'

def verticalLeft : Char := '┤'

def horizontalDown : Char := '┬'

def horizontalUp : Char := '┴'

def intersection : Char := '┼'

/-- The 16-entry glyph table of `cornerGlyph`, indexed by the 4-bit
direction code. -/
def cornerGlyphTable : List Char :=
  [' ',             -- Nothing
   vertical,        -- Up
   vertical,        -- Down
   vertical,        -- Down | Up
   horizontal,      -- Left
   cornerUpLeft,    -- Left | Up
   cornerDownLeft,  -- Left | Down
   verticalLeft,    -- Left | Down | Up
   horizontal,      -- Right
   cornerUpRight,   -- Right | Up
   cornerDownRight, -- Right | Down
   verticalRight,   -- Right | Down | Up
   horizontal,      -- Right | Left
   horizontalUp,    -- Right | Left | Up
   horizontalDown,  -- Right | Left | Down
   intersection]    -- Right | Left | Down | Up

/-- `cornerGlyph`: OR the four direction flags into a 4-bit index and
look it up in the fixed table (the index is always < 16, so the `getD`
default is unreachable). -/
def cornerGlyph (up left down right : Bool) : Char :=
  let idx : Nat :=
    (if up then 1 else 0) ||| (if down then 2 else 0) |||
    (if left then 4 else 0) ||| (if right then 8 else 0)
  cornerGlyphTable.getD idx ' '

/-- The outputs of `cornerGlyph` on all 16 direction combinations,
in table-index order (argument order: up, left, down, right). -/
def cornerGlyphImage : List Char :=
  [cornerGlyph false false false false,
   cornerGlyph true false false false,
   cornerGlyph false false true false,
   cornerGlyph true false true false,
   cornerGlyph false true false false,
   cornerGlyph true true false false,
   cornerGlyph false true true false,
   cornerGlyph true true true false,
   cornerGlyph false false false true,
   cornerGlyph true false false true,
   cornerGlyph false false true true,
   cornerGlyph true false true true,
   cornerGlyph false true false true,
   cornerGlyph true true false true,
   cornerGlyph false true true true,
   cornerGlyph true true true true]

/-! ## Theorems -/

/-- C4: `At(row, column)` returns a cell iff `0 ≤ row < R` and
`0 ≤ column < C`; for any other coordinates it returns absent (`none`),
and it is a total function, so it never panics. -/
theorem At_some_iff_inBounds (g : Grid) (row col : Int) :
    ((∃ p, g.At row col = some p) ↔ g.inBounds (row, col))
    ∧ (g.At row col = none ↔ ¬g.inBounds (row, col)) := by
  unfold Grid.At Grid.inBounds
  split_ifs with h
  · simp only [reduceCtorEq, exists_false, false_iff, true_iff]
    omega
  · simp only [Option.some.injEq, exists_eq', true_iff, reduceCtorEq, false_iff, not_not]
    omega

/-- C5: after `A.Link(B)` (both cells present), `A.Linked(B)` and
`B.Linked(A)` are both true; after `A.Unlink(B)`, both are false. -/
theorem link_unlink_reciprocal (s : LinkState) (a b : Pos) :
    Linked (link2 s a b) a (some b) = true
    ∧ Linked (link2 s a b) b (some a) = true
    ∧ Linked (unlink2 s a b) a (some b) = false
    ∧ Linked (unlink2 s a b) b (some a) = false := by
  by_cases hab : a = b <;>
    simp [Linked, link2, unlink2, LinkOneWay, UnlinkOneWay, hab]

/-- C8: `Linked` against a nil neighbor returns false, whatever the
current link map holds. -/
theorem linked_nil_false (s : LinkState) (c : Pos) : Linked s c none = false := rfl

/-- C9: `Link(nil)` panics (the second one-way call dereferences the nil
receiver), while `LinkOneWay(nil)` inserts the nil key into the link map
— yet `Linked(nil)` still reports false afterward. -/
theorem link_nil_panics_linkOneWay_nil_inserts (s : LinkState) (c : Pos) :
    Link s c none = none
    ∧ LinkOneWay s c none c none = true
    ∧ Linked (LinkOneWay s c none) c none = false := by
  refine ⟨rfl, ?_, rfl⟩
  simp [LinkOneWay]

/-- C7 counterexample: the 16 direction combinations do NOT map onto 11
distinct glyphs — the image of `cornerGlyph` has 12 distinct characters. -/
theorem cornerGlyph_not_eleven_distinct :
    ¬ cornerGlyphImage.dedup.length = 11 := by decide

/-- C7 (amended): the corner-glyph selection is a fixed total lookup —
every one of the 16 direction combinations deterministically yields the
glyph listed (no direction → blank; up, down, up-and-down → vertical;
left, right, left-and-right → horizontal; all others the matching
corner/tee/cross) — and the 16 combinations map onto 12 distinct glyphs. -/
theorem cornerGlyph_lookup_table :
    cornerGlyph false false false false = ' '
    ∧ cornerGlyph true false false false = vertical
    ∧ cornerGlyph false false true false = vertical
    ∧ cornerGlyph true false true false = vertical
    ∧ cornerGlyph false true false false = horizontal
    ∧ cornerGlyph false false false true = horizontal
    ∧ cornerGlyph false true false true = horizontal
    ∧ cornerGlyph true true false false = cornerUpLeft
    ∧ cornerGlyph false true true false = cornerDownLeft
    ∧ cornerGlyph true true true false = verticalLeft
    ∧ cornerGlyph true false false true = cornerUpRight
    ∧ cornerGlyph false false true true = cornerDownRight
    ∧ cornerGlyph true false true true = verticalRight
    ∧ cornerGlyph true true false true = horizontalUp
    ∧ cornerGlyph false true true true = horizontalDown
    ∧ cornerGlyph true true true true = intersection
    ∧ cornerGlyphImage.dedup.length = 12 := by decide

/-- Characterization of `At` hitting a particular cell. -/
theorem At_eq_some_iff (g : Grid) (r c : Int) (p : Pos) :
    g.At r c = some p
      ↔ 0 ≤ r ∧ r < g.rows ∧ 0 ≤ c ∧ c < g.cols ∧ p = (r, c) := by
  unfold Grid.At
  split_ifs with h
  · simp only [reduceCtorEq, false_iff]
    rintro ⟨h1, h2, h3, h4, rfl⟩
    omega
  · simp only [Option.some.injEq]
    constructor
    · intro hh
      exact ⟨by omega, by omega, by omega, by omega, hh.symm⟩
    · rintro ⟨_, _, _, _, rfl⟩
      rfl

/-- C3: in a freshly constructed grid every adjacency reference is
reciprocal (`A.East = B` iff `B.West = A`, and `A.North = B` iff
`B.South = A`, for all cells `A`, `B` of the grid), and every cell's
link set is empty. -/
theorem fresh_grid_reciprocal_adjacency (g : Grid) (A B : Pos)
    (hA : g.inBounds A) (hB : g.inBounds B) :
    ((g.east A = some B ↔ g.west B = some A)
      ∧ (g.north A = some B ↔ g.south B = some A))
    ∧ (∀ p n, initLinks p n = false) := by
  obtain ⟨a1, a2⟩ := A
  obtain ⟨b1, b2⟩ := B
  obtain ⟨hA1, hA2, hA3, hA4⟩ := hA
  obtain ⟨hB1, hB2, hB3, hB4⟩ := hB
  refine ⟨⟨?_, ?_⟩, fun p n => rfl⟩ <;>
  · simp only [Grid.east, Grid.west, Grid.north, Grid.south, At_eq_some_iff,
      Prod.mk.injEq]
    constructor
    · rintro ⟨_, _, _, _, rfl, rfl⟩
      refine ⟨by omega, by omega, by omega, by omega, by omega, by omega⟩
    · rintro ⟨_, _, _, _, rfl, rfl⟩
      refine ⟨by omega, by omega, by omega, by omega, by omega, by omega⟩

/-- C3 witness: the reciprocity instance on the 2×2 grid for the cells
`(0,0)` and `(0,1)`. -/
theorem fresh_grid_reciprocal_adjacency_witness :
    (Grid.east ⟨2, 2⟩ (0, 0) = some (0, 1) ↔ Grid.west ⟨2, 2⟩ (0, 1) = some (0, 0))
    ∧ (Grid.north ⟨2, 2⟩ (0, 0) = some (0, 1) ↔ Grid.south ⟨2, 2⟩ (0, 1) = some (0, 0)) :=
  (fresh_grid_reciprocal_adjacency ⟨2, 2⟩ (0, 0) (0, 1) (by decide) (by decide)).1

/-- C10: `NewGrid` permits zero dimensions, but `RandomCell` panics
(`rand.Int63n` with a non-positive bound) on every grid with zero rows
or zero columns; on a grid with `R ≥ 1` and `C ≥ 1` it returns a
present cell of the grid. -/
theorem randomCell_panics_on_empty (g : Grid) (d1 d2 : Nat) :
    (0 ≤ g.rows → 0 ≤ g.cols → (NewGrid g.rows g.cols).isSome = true)
    ∧ (g.rows = 0 ∨ g.cols = 0 → RandomCell g d1 d2 = none)
    ∧ (1 ≤ g.rows → 1 ≤ g.cols →
        ∃ p, RandomCell g d1 d2 = some (some p) ∧ g.inBounds p) := by
  refine ⟨?_, ?_, ?_⟩
  · intro h1 h2
    unfold NewGrid
    rw [if_neg (by omega)]
    rfl
  · intro h
    unfold RandomCell int63n
    rcases h with h | h
    · rw [h]
      simp
    · rw [h]
      split_ifs <;> simp_all
  · intro h1 h2
    have hr0 : (0 : Int) ≤ (d1 : Int) % g.rows := Int.emod_nonneg _ (by omega)
    have hr1 : (d1 : Int) % g.rows < g.rows := Int.emod_lt_of_pos _ (by omega)
    have hc0 : (0 : Int) ≤ (d2 : Int) % g.cols := Int.emod_nonneg _ (by omega)
    have hc1 : (d2 : Int) % g.cols < g.cols := Int.emod_lt_of_pos _ (by omega)
    refine ⟨((d1 : Int) % g.rows, (d2 : Int) % g.cols), ?_, ⟨hr0, hr1, hc0, hc1⟩⟩
    have e1 : int63n g.rows d1 = some ((d1 : Int) % g.rows) := by
      unfold int63n
      rw [if_neg (by omega)]
    have e2 : int63n g.cols d2 = some ((d2 : Int) % g.cols) := by
      unfold int63n
      rw [if_neg (by omega)]
    have e3 : g.At ((d1 : Int) % g.rows) ((d2 : Int) % g.cols)
        = some ((d1 : Int) % g.rows, (d2 : Int) % g.cols) := by
      unfold Grid.At
      rw [if_neg (by omega)]
    unfold RandomCell
    rw [e1, e2]
    exact congrArg some e3

/-- C10 witness: `RandomCell` on the 0×3 grid panics. -/
theorem randomCell_panics_witness : RandomCell ⟨0, 3⟩ 1 2 = none :=
  (randomCell_panics_on_empty ⟨0, 3⟩ 1 2).2.1 (Or.inl rfl)

/-- C1: on the 2×2 grid with the all-zeros random stream, Sidewinder's
close-outs record the runs `[(0,0),(0,1)]`, `[(1,0)]` and
`[(1,0),(1,1)]` — the cell `(1,0)` belongs to two of the runs closed
out in its row, because the source never resets `run` after a
close-out, so the runs do not partition the row. -/
theorem sidewinder_runs_overlap_on_2x2 :
    (Sidewinder ⟨2, 2⟩ (fun _ => 0)).closedRuns
      = [[(0, 0), (0, 1)], [(1, 0)], [(1, 0), (1, 1)]]
    ∧ ((Sidewinder ⟨2, 2⟩ (fun _ => 0)).closedRuns.filter
        (fun r => decide (((1 : Int), (0 : Int)) ∈ r))).length = 2 := by
  decide

/-- Appending a run changes `closedRuns`. -/
theorem closedRuns_append_ne (l : List (List Pos)) (r : List Pos) :
    l ≠ l ++ [r] := by
  intro h
  have := congrArg List.length h
  simp at this

/-- Simp form of `closedRuns_append_ne`. -/
theorem closedRuns_append_iff (l : List (List Pos)) (r : List Pos) :
    (l = l ++ [r]) ↔ False :=
  iff_false_intro (closedRuns_append_ne l r)

/-- C6: one Sidewinder iteration closes the run iff the cell has no East
neighbor, or it has a North neighbor and the coin (`f st.k % 2 = 0`)
lands close.  The coin is never consulted for a cell with no North
neighbor (the draw counter `k` then only advances for the close-out's
member draw), so a top-row cell closes only at the eastern boundary.  On
close, the member at index `f k % len(run)` of the run is linked to its
North neighbor exactly when it has one; on non-close the cell is linked
to its East neighbor. -/
theorem sidewinder_step_characterization (g : Grid) (f : Nat → Nat)
    (st : SWState) (p : Pos) :
    ((swStep g f st p).closedRuns = st.closedRuns ++ [st.run ++ [p]]
      ↔ (g.east p = none ∨ (g.north p ≠ none ∧ f st.k % 2 = 0)))
    ∧ ((swStep g f st p).closedRuns = st.closedRuns
        ∨ (swStep g f st p).closedRuns = st.closedRuns ++ [st.run ++ [p]])
    ∧ (g.north p = none →
        (swStep g f st p).k = st.k + (if g.east p = none then 1 else 0))
    ∧ (g.north p = none →
        ((swStep g f st p).closedRuns ≠ st.closedRuns ↔ g.east p = none))
    ∧ (g.east p = none →
        swStep g f st p = swCloseOut g f st.links (st.run ++ [p]) st.k st.closedRuns)
    ∧ (∀ e n, g.east p = some e → g.north p = some n → f st.k % 2 = 0 →
        swStep g f st p
          = swCloseOut g f st.links (st.run ++ [p]) (st.k + 1) st.closedRuns)
    ∧ (∀ e, g.east p = some e → ¬(g.north p ≠ none ∧ f st.k % 2 = 0) →
        (swStep g f st p).links = link2 st.links p e)
    ∧ (∀ links run k closed,
        (swCloseOut g f links run k closed).links
          = (match g.north (run.getD (f k % run.length) (0, 0)) with
             | some n => link2 links (run.getD (f k % run.length) (0, 0)) n
             | none => links)) := by
  have hclose : ∀ links run k closed,
      (swCloseOut g f links run k closed).links
        = (match g.north (run.getD (f k % run.length) (0, 0)) with
           | some n => link2 links (run.getD (f k % run.length) (0, 0)) n
           | none => links) := fun _ _ _ _ => rfl
  rcases he : g.east p with _ | e
  · have hstep : swStep g f st p
        = swCloseOut g f st.links (st.run ++ [p]) st.k st.closedRuns := by
      simp only [swStep, he]
    refine ⟨?_, ?_, ?_, ?_, fun _ => hstep, ?_, ?_, hclose⟩
    · simp [hstep, swCloseOut]
    · right
      simp [hstep, swCloseOut]
    · intro _
      simp [hstep, swCloseOut]
    · intro _
      simp [hstep, swCloseOut, closedRuns_append_iff]
    · intro e' n' hee _ _
      exact Option.noConfusion hee
    · intro e' hee _
      exact Option.noConfusion hee
  · rcases hn : g.north p with _ | n
    · have hstep : swStep g f st p
          = { links := link2 st.links p e, run := st.run ++ [p], k := st.k,
              closedRuns := st.closedRuns } := by
        simp only [swStep, he, hn]
      refine ⟨?_, ?_, ?_, ?_, ?_, ?_, ?_, hclose⟩
      · simp [hstep, closedRuns_append_iff]
      · left
        simp [hstep]
      · intro _
        simp [hstep]
      · intro _
        simp [hstep]
      · intro hee
        exact Option.noConfusion hee
      · intro e' n' _ hnn _
        exact Option.noConfusion hnn
      · intro e' hee _
        rw [hstep]
        cases hee
        rfl
    · by_cases hcoin : f st.k % 2 = 0
      · have hstep : swStep g f st p
            = swCloseOut g f st.links (st.run ++ [p]) (st.k + 1) st.closedRuns := by
          simp only [swStep, he, hn, if_pos hcoin]
        refine ⟨?_, ?_, ?_, ?_, ?_, ?_, ?_, hclose⟩
        · simp [hstep, swCloseOut, hcoin]
        · right
          simp [hstep, swCloseOut]
        · intro hnn
          exact Option.noConfusion hnn
        · intro hnn
          exact Option.noConfusion hnn
        · intro hee
          exact Option.noConfusion hee
        · intro e' n' hee hnn hc
          rw [hstep]
        · intro e' _ hcontra
          exact absurd ⟨fun hh => Option.noConfusion hh, hcoin⟩ hcontra
      · have hstep : swStep g f st p
            = { links := link2 st.links p e, run := st.run ++ [p], k := st.k + 1,
                closedRuns := st.closedRuns } := by
          simp only [swStep, he, hn, if_neg hcoin]
        refine ⟨?_, ?_, ?_, ?_, ?_, ?_, ?_, hclose⟩
        · simp [hstep, closedRuns_append_iff, hcoin]
        · left
          simp [hstep]
        · intro hnn
          exact Option.noConfusion hnn
        · intro hnn
          exact Option.noConfusion hnn
        · intro hee
          exact Option.noConfusion hee
        · intro e' n' _ _ hc
          exact absurd hc hcoin
        · intro e' hee _
          rw [hstep]
          cases hee
          rfl

/-- C6 witness: on the 2×2 grid, the top-left cell (East neighbor
present, no North neighbor) does not close and is linked East. -/
theorem sidewinder_step_characterization_witness :
    (swStep ⟨2, 2⟩ (fun _ => 1) ⟨initLinks, [], 0, []⟩ (0, 0)).links
      = link2 initLinks (0, 0) (0, 1) :=
  (sidewinder_step_characterization ⟨2, 2⟩ (fun _ => 1)
      ⟨initLinks, [], 0, []⟩ (0, 0)).2.2.2.2.2.2.1 (0, 1) (by decide) (by decide)

/-- Membership in the traversal order is exactly being in bounds. -/
theorem mem_cellList (g : Grid) (p : Pos) : p ∈ g.cellList ↔ g.inBounds p := by
  obtain ⟨p1, p2⟩ := p
  unfold Grid.cellList Grid.rowList Grid.inBounds
  simp only [List.mem_flatten, List.mem_map, List.mem_range]
  constructor
  · rintro ⟨l, ⟨r, hr, rfl⟩, hl⟩
    obtain ⟨c, hc, hpc⟩ := List.mem_map.mp hl
    rw [List.mem_range] at hc
    cases hpc
    refine ⟨by omega, by omega, by omega, by omega⟩
  · rintro ⟨h1, h2, h3, h4⟩
    refine ⟨_, ⟨p1.toNat, by omega, rfl⟩, ?_⟩
    simp only [List.mem_map, List.mem_range]
    refine ⟨p2.toNat, by omega, ?_⟩
    simp only [Prod.mk.injEq]
    constructor <;> omega

/-- The traversal visits exactly `Size` cells: one iteration per cell. -/
theorem length_cellList (g : Grid) (h1 : 0 ≤ g.rows) (h2 : 0 ≤ g.cols) :
    g.cellList.length = g.Size.toNat := by
  unfold Grid.cellList Grid.rowList Grid.Size
  rw [List.length_flatten, List.map_map]
  have hconst : (List.length ∘ fun r : Nat =>
      (List.range g.cols.toNat).map (fun c : Nat => ((r : Int), (c : Int))))
      = fun _ : Nat => g.cols.toNat := by
    funext r
    simp
  rw [hconst]
  have hcast : ((g.rows.toNat * g.cols.toNat : Nat) : Int) = g.rows * g.cols := by
    push_cast
    rw [Int.toNat_of_nonneg h1, Int.toNat_of_nonneg h2]
  have hmul : (g.rows * g.cols).toNat = g.rows.toNat * g.cols.toNat := by
    rw [← hcast, Int.toNat_natCast]
  rw [hmul]
  simp [List.map_const', List.sum_replicate, smul_eq_mul]

/-- Linking never erases an existing link entry. -/
theorem link2_pres (s : LinkState) (a b p : Pos) (n : Option Pos)
    (h : s p n = true) : link2 s a b p n = true := by
  simp only [link2, LinkOneWay]
  split_ifs <;> simp [h]

/-- `Link` records the forward direction. -/
theorem link2_fst (s : LinkState) (a b : Pos) : link2 s a b a (some b) = true := by
  simp only [link2, LinkOneWay]
  by_cases hab : a = b <;> simp [hab]

/-- `Link` records the backward direction. -/
theorem link2_snd (s : LinkState) (a b : Pos) : link2 s a b b (some a) = true := by
  simp only [link2, LinkOneWay]
  simp

/-- One Binary Tree step never erases an existing link entry. -/
theorem btStep_pres (g : Grid) (ch : Pos → Nat) (s : LinkState) (x p : Pos)
    (n : Option Pos) (h : s p n = true) : btStep g ch s x p n = true := by
  unfold btStep
  split_ifs with hx
  · exact h
  · exact link2_pres _ _ _ _ _ h

/-- The Binary Tree fold never erases an existing link entry. -/
theorem btFold_pres (g : Grid) (ch : Pos → Nat) (l : List Pos) :
    ∀ s p n, s p n = true → (l.foldl (btStep g ch) s) p n = true := by
  induction l with
  | nil => exact fun s p n h => h
  | cons x xs ih => exact fun s p n h => ih _ p n (btStep_pres g ch s x p n h)

/-- Every visited cell with a non-empty North/East neighbor list ends up
linked (in both directions) to one of those neighbors. -/
theorem btFold_links (g : Grid) (ch : Pos → Nat) (l : List Pos) :
    ∀ s (p : Pos), p ∈ l → btNeighbors g p ≠ [] →
      ∃ q, q ∈ btNeighbors g p
        ∧ (l.foldl (btStep g ch) s) p (some q) = true
        ∧ (l.foldl (btStep g ch) s) q (some p) = true := by
  induction l with
  | nil =>
    intro s p hp _
    cases hp
  | cons x xs ih =>
    intro s p hp hn
    simp only [List.foldl_cons]
    rcases List.mem_cons.mp hp with rfl | hp'
    · refine ⟨(btNeighbors g p).get
        ⟨ch p % (btNeighbors g p).length, Nat.mod_lt _ (List.length_pos.mpr hn)⟩,
        List.get_mem _ _ _, ?_, ?_⟩
      · apply btFold_pres
        unfold btStep
        rw [dif_neg hn]
        exact link2_fst _ _ _
      · apply btFold_pres
        unfold btStep
        rw [dif_neg hn]
        exact link2_snd _ _ _
    · exact ih (btStep g ch s x) p hp' hn

/-- The only in-bounds cell with neither a North nor an East neighbor is
the top-right corner. -/
theorem btNeighbors_eq_nil_iff (g : Grid) (p : Pos) (hp : g.inBounds p) :
    btNeighbors g p = [] ↔ p.1 = 0 ∧ p.2 = g.cols - 1 := by
  obtain ⟨p1, p2⟩ := p
  obtain ⟨h1, h2, h3, h4⟩ := hp
  unfold btNeighbors Grid.north Grid.east Grid.At
  split_ifs with ha hb hb <;> simp <;> omega

/-- C2: `BinaryTree` terminates after exactly `R×C` iterations (the
traversal list has exactly `Size` entries, one linking decision each);
when the grid is not 1×1 every cell ends with at least one link, and on
the 1×1 grid the link state stays empty. -/
theorem binaryTree_terminates_and_covers (g : Grid) (ch : Pos → Nat)
    (h1 : 1 ≤ g.rows) (h2 : 1 ≤ g.cols) :
    g.cellList.length = g.Size.toNat
    ∧ (¬(g.rows = 1 ∧ g.cols = 1) →
        ∀ p, g.inBounds p → ∃ q, Linked (BinaryTree g ch) p (some q) = true)
    ∧ ((g.rows = 1 ∧ g.cols = 1) →
        ∀ p n, BinaryTree g ch p n = initLinks p n) := by
  refine ⟨length_cellList g (by omega) (by omega), ?_, ?_⟩
  · intro hne p hp
    by_cases hnil : btNeighbors g p = []
    · have hcorner := (btNeighbors_eq_nil_iff g p hp).mp hnil
      by_cases hc2 : 2 ≤ g.cols
      · have hw : g.inBounds (0, g.cols - 2) :=
          ⟨by omega, by omega, by omega, by omega⟩
        have hwn : btNeighbors g (0, g.cols - 2) = [p] := by
          have hpe : p = (0, g.cols - 2 + 1) := by
            obtain ⟨q1, q2⟩ := p
            simp only [Prod.mk.injEq]
            obtain ⟨hh1, hh2⟩ := hcorner
            constructor <;> omega
          unfold btNeighbors Grid.north Grid.east Grid.At
          rw [if_pos (by omega), if_neg (by omega)]
          rw [hpe]
          rfl
        obtain ⟨q, hq, _, hl2⟩ := btFold_links g ch g.cellList initLinks
          (0, g.cols - 2) ((mem_cellList g _).mpr hw) (by rw [hwn]; simp)
        rw [hwn, List.mem_singleton] at hq
        subst hq
        exact ⟨(0, g.cols - 2), hl2⟩
      · have hw : g.inBounds (1, 0) :=
          ⟨by omega, by omega, by omega, by omega⟩
        have hwn : btNeighbors g (1, 0) = [p] := by
          have hpe : p = ((1 : Int) - 1, (0 : Int)) := by
            obtain ⟨q1, q2⟩ := p
            simp only [Prod.mk.injEq]
            obtain ⟨hh1, hh2⟩ := hcorner
            constructor <;> omega
          unfold btNeighbors Grid.north Grid.east Grid.At
          rw [if_neg (by omega), if_pos (by omega)]
          rw [hpe]
          rfl
        obtain ⟨q, hq, _, hl2⟩ := btFold_links g ch g.cellList initLinks
          (1, 0) ((mem_cellList g _).mpr hw) (by rw [hwn]; simp)
        rw [hwn, List.mem_singleton] at hq
        subst hq
        exact ⟨(1, 0), hl2⟩
    · obtain ⟨q, _, hl1, _⟩ := btFold_links g ch g.cellList initLinks p
        ((mem_cellList g p).mpr hp) hnil
      exact ⟨q, hl1⟩
  · rintro ⟨hr, hc⟩ p n
    cases g
    simp only at hr hc
    subst hr
    subst hc
    have hcl : Grid.cellList ⟨1, 1⟩ = [(0, 0)] := by decide
    unfold BinaryTree
    rw [hcl]
    simp only [List.foldl_cons, List.foldl_nil]
    unfold btStep
    rw [dif_pos (by decide)]

/-- C2 witness: on the 1×2 grid the traversal has exactly `Size = 2`
entries. -/
theorem binaryTree_terminates_and_covers_witness :
    (Grid.cellList ⟨1, 2⟩).length = (Grid.Size ⟨1, 2⟩).toNat :=
  (binaryTree_terminates_and_covers ⟨1, 2⟩ (fun _ => 0)
    (by decide) (by decide)).1

end Maze
